import Mathlib

/-!
Verification of the server-side core specified for the Quantum Web3 NFT
service (repository Stylecaro/qiskit).  The repository's source contains
only the browser UI (`src/frontend/src/App.js`); the backend components
(Hasher, Token Registry, Ledger, Oracle, Service Boundary) are specified
in `spec.md` and are modelled here from that specification.  The UI's
`createNFT`, `getBlockchain` and `getQuantumAI` handlers are embedded
from the source file itself.
-/

/-- JSON values, as exchanged on the wire and stored as token metadata.
Numeric literals are modelled as integers (the claims never involve
fractional numbers; floating point is outside the embedding). -/
inductive Json where
  | null : Json
  | bool (b : Bool) : Json
  | num (n : Int) : Json
  | str (s : String) : Json
  | arr (elems : List Json) : Json
  | obj (fields : List (String × Json)) : Json

/-- Whether a JSON value is an object (the shape required of mint metadata). -/
def Json.isObj : Json → Bool
  | .obj _ => true
  | _ => false

mutual

/-- Deterministic serialization of a JSON value, used as the byte
representation fed to the Hasher.  Modelled from the spec: the Hasher
consumes "an ordered byte representation" of block fields; any fixed
deterministic serialization satisfies the contract. -/
def serializeJson : Json → String
  | .null => "null"
  | .bool b => if b then "true" else "false"
  | .num n => toString n
  | .str s => "\x22" ++ s ++ "\x22"
  | .arr elems => "[" ++ serializeJsonList elems ++ "]"
  | .obj fields => "\x7b" ++ serializeJsonFields fields ++ "\x7d"

/-- Serialization of a JSON array body, comma separated. -/
def serializeJsonList : List Json → String
  | [] => ""
  | [x] => serializeJson x
  | x :: xs => serializeJson x ++ "," ++ serializeJsonList xs

/-- Serialization of a JSON object body, comma separated key/value pairs. -/
def serializeJsonFields : List (String × Json) → String
  | [] => ""
  | [(k, v)] => "\x22" ++ k ++ "\x22:" ++ serializeJson v
  | (k, v) :: kvs => "\x22" ++ k ++ "\x22:" ++ serializeJson v ++ "," ++ serializeJsonFields kvs

end

/-- Modelled from the spec: the Hasher, a "deterministic content-addressing
primitive; pure function, no state", producing a fixed-length digest.  A
64-bit polynomial rolling hash of the serialized input stands in for the
unspecified digest algorithm (spec §9 leaves the hash algorithm open). -/
def hashString (s : String) : Nat :=
  s.data.foldl (fun h c => (h * 31 + c.toNat) % (2 ^ 64)) 5381

/-- A minted token record: identifier, metadata object and the creation
sequence number assigned by the Ledger.  Modelled from the spec (§3,
"Token Record"). -/
structure TokenRecord where
  token_id : String
  metadata : Json
  seq : Nat

/-- Serialization of an optional token record (the genesis block carries
none), used inside the Hasher input. -/
def serializeRecord : Option TokenRecord → String
  | none => "null"
  | some r => "\x7b" ++ r.token_id ++ "|" ++ serializeJson r.metadata ++ "|" ++ toString r.seq ++ "\x7d"

/-- Modelled from the spec: the content hash of a block is the Hasher
applied to the ordered representation of \x7bsequence index, serialized
token record, previous hash\x7d (spec §4.1, §3). -/
def contentHash (sequence_index : Nat) (record : Option TokenRecord) (previous_hash : Option Nat) : Nat :=
  hashString (toString sequence_index ++ "#" ++ serializeRecord record ++ "#" ++
    (match previous_hash with
     | none => "none"
     | some h => toString h))

/-- A block of the ledger.  Modelled from the spec (§3, "Block"):
sequence index, optional token record, optional previous hash, own
content hash, creation timestamp. -/
structure Block where
  sequence_index : Nat
  record : Option TokenRecord
  previous_hash : Option Nat
  hash : Nat
  timestamp : Nat

/-- The content hash of a block, recomputed from its fields (the
timestamp is not part of the hashed content, per spec §3). -/
def blockContentHash (b : Block) : Nat :=
  contentHash b.sequence_index b.record b.previous_hash

/-- Modelled from the spec: `genesis() -> Block` "produces the fixed
first block (sequence 0, no record, previous hash absent)". -/
def genesisBlock : Block :=
  { sequence_index := 0
    record := none
    previous_hash := none
    hash := contentHash 0 none none
    timestamp := 0 }

/-- Modelled from the spec: the Ledger, "an ordered sequence of Blocks". -/
structure Ledger where
  chain : List Block

/-- Modelled from the spec: a Ledger is created at process start holding
exactly the genesis block. -/
def Ledger.new : Ledger :=
  ⟨[genesisBlock]⟩

/-- Modelled from the spec: `append(record) -> Block` "computes
`sequence_index = length`, sets `previous_hash` to the content hash of
the current last block, computes the new block's own hash via the
Hasher, pushes it, and returns it".  The timestamp of the new block is
supplied by the caller (the boundary). -/
def Ledger.append (L : Ledger) (r : TokenRecord) (ts : Nat) : Ledger × Block :=
  let n := L.chain.length
  let prev := L.chain.getLast?.map blockContentHash
  let b : Block :=
    { sequence_index := n
      record := some r
      previous_hash := prev
      hash := contentHash n (some r) prev
      timestamp := ts }
  (⟨L.chain ++ [b]⟩, b)

/-- One step of chain verification: walks the list of blocks carrying the
predecessor, recomputing each block's hash and checking both the stored
hash and the linkage to the predecessor; reports the sequence index of
the first corrupt block.  Modelled from the spec (§4.3, `verify()`). -/
def verifyFrom : Option Block → List Block → Except Nat Unit
  | _, [] => .ok ()
  | prev, b :: rest =>
    if b.hash ≠ blockContentHash b then .error b.sequence_index
    else if b.previous_hash ≠ prev.map blockContentHash then .error b.sequence_index
    else verifyFrom (some b) rest

/-- Modelled from the spec: `verify() -> Ok | Err(CorruptionAt(index))`
walks the chain from genesis. -/
def Ledger.verify (L : Ledger) : Except Nat Unit :=
  verifyFrom none L.chain

/-- Modelled from the spec: `snapshot()` returns a read-only copy of the
full chain for serialization. -/
def Ledger.snapshot (L : Ledger) : List Block :=
  L.chain

/-- Modelled from the spec: the error kinds of §7. -/
inductive MintError where
  | InvalidMetadata : MintError
  | DuplicateIdentifier : MintError
  | MalformedRequest : MintError
deriving DecidableEq

/-- Modelled from the spec: the Registry index, a "mapping from token
identifier to the sequence index of the block that minted it" (§3). -/
structure Registry where
  index : List (String × Nat)

/-- Modelled from the spec: `reserve(identifier)` "atomically checks and
reserves" the identifier, failing with `DuplicateIdentifier` when it is
already minted (§4.2). -/
def Registry.reserve (R : Registry) (identifier : String) (seqIdx : Nat) : Except MintError Registry :=
  if R.index.any (fun kv => kv.1 = identifier) then .error .DuplicateIdentifier
  else .ok ⟨(identifier, seqIdx) :: R.index⟩

/-- The shared state of the service process: the Ledger and the Registry
(spec §5, "shared mutable state accessed by potentially concurrent mint
requests"). -/
structure ServiceState where
  ledger : Ledger
  registry : Registry

/-- The state at process start: genesis ledger, empty registry. -/
def freshState : ServiceState :=
  { ledger := Ledger.new, registry := ⟨[]⟩ }

/-- Modelled from the spec: the mint path.  The boundary rejects
non-object metadata and empty identifiers with `InvalidMetadata` before
reaching the Registry (§4.2, §6); the Registry reserves the identifier;
the Ledger appends the validated record.  Per §5 the whole path executes
as a single critical section, so it is modelled as one atomic step. -/
def mint (s : ServiceState) (token_id : String) (metadata : Json) (ts : Nat) : Except MintError (ServiceState × Block) :=
  if metadata.isObj = false then .error .InvalidMetadata
  else if token_id = "" then .error .InvalidMetadata
  else
    match s.registry.reserve token_id s.ledger.chain.length with
    | .error e => .error e
    | .ok reg =>
      let r : TokenRecord := ⟨token_id, metadata, s.ledger.chain.length⟩
      let (L, b) := s.ledger.append r ts
      .ok (⟨L, reg⟩, b)

/-- The outcome of a mint request as surfaced by the boundary. -/
inductive MintResult where
  | success (sequence_index : Nat) : MintResult
  | failure (e : MintError) : MintResult
deriving DecidableEq

/-- Modelled from the spec: the boundary's mint handler; a validation
failure leaves the state untouched (§4.3 "all-or-nothing", §7 "no state
change"). -/
def handleMint (s : ServiceState) (token_id : String) (metadata : Json) (ts : Nat) : ServiceState × MintResult :=
  match mint s token_id metadata ts with
  | .ok (s', b) => (s', .success b.sequence_index)
  | .error e => (s, .failure e)

/-- One mint request: identifier, metadata, timestamp. -/
structure MintReq where
  token_id : String
  metadata : Json
  ts : Nat

/-- A sequence of mint requests applied in order through the boundary
handler.  Per spec §5 each mint is one critical section, so any
interleaving of concurrent mints is some order of atomic `handleMint`
steps, which this fold ranges over. -/
def mintMany (s : ServiceState) (reqs : List MintReq) : ServiceState :=
  reqs.foldl (fun st r => (handleMint st r.token_id r.metadata r.ts).1) s

/-- The identifiers minted in a ledger, in chain order (genesis carries
no record and contributes nothing). -/
def chainIds (L : Ledger) : List String :=
  L.chain.filterMap (fun b => b.record.map TokenRecord.token_id)

/-- Modelled from the spec: the Oracle, `respond(query) -> Message`, a
"pure, deterministic function of the query content (and optionally the
current chain length)" (§4.4); implemented as a deterministic
pseudo-random function keyed by the input (§9). -/
def Oracle.respond (query : String) (chainLen : Nat) : String :=
  "Quantum AI response " ++ toString ((hashString query + chainLen * 7919) % 1000)

/-- Modelled from the spec: the boundary's oracle handler; no side
effects, no chain mutation, so the state is returned unchanged. -/
def handleOracle (s : ServiceState) (query : String) : String × ServiceState :=
  (Oracle.respond query s.ledger.chain.length, s)

/-- The left-brace character, written via its code point. -/
def lbrace : Char := Char.ofNat 123

/-- The right-brace character, written via its code point. -/
def rbrace : Char := Char.ofNat 125

/-- The double-quote character, written via its code point. -/
def dquote : Char := Char.ofNat 34

/-- Skip JSON whitespace. -/
def jsonSkipWs : List Char → List Char
  | c :: cs => if c = ' ' ∨ c = '\n' ∨ c = '\t' ∨ c = '\r' then jsonSkipWs cs else c :: cs
  | [] => []

/-- Decode a single-character JSON string escape. -/
def jsonUnescape (c : Char) : Option Char :=
  if c = dquote then some dquote
  else if c = '\\' then some '\\'
  else if c = '/' then some '/'
  else if c = 'n' then some '\n'
  else if c = 't' then some '\t'
  else if c = 'r' then some '\r'
  else if c = 'b' then some (Char.ofNat 8)
  else if c = 'f' then some (Char.ofNat 12)
  else none

/-- Value of a run of decimal digits. -/
def digitsToNat (ds : List Char) : Nat :=
  ds.foldl (fun n c => n * 10 + (c.toNat - 48)) 0

/-- Parse a run of decimal digits; fails on an empty run. -/
def parseDigits (cs : List Char) : Option (Nat × List Char) :=
  match cs.takeWhile Char.isDigit with
  | [] => none
  | ds => some (digitsToNat ds, cs.dropWhile Char.isDigit)

mutual

/-- Modelled from the spec: one step of the browser runtime's
`JSON.parse`, used by the UI's `createNFT` and absent from the source.
Parses one JSON value from a character stream; fuel bounds recursion.
Numeric literals are limited to integers (see `Json`). -/
def parseValue : Nat → List Char → Option (Json × List Char)
  | 0, _ => none
  | fuel + 1, cs =>
    match jsonSkipWs cs with
    | [] => none
    | c :: rest =>
      if c = dquote then (parseStringBody fuel rest).map (fun p => (.str p.1, p.2))
      else if c = lbrace then
        match jsonSkipWs rest with
        | c2 :: r2 =>
          if c2 = rbrace then some (.obj [], r2)
          else (parseMembers fuel (c2 :: r2)).map (fun p => (.obj p.1, p.2))
        | [] => none
      else if c = '[' then
        match jsonSkipWs rest with
        | c2 :: r2 =>
          if c2 = ']' then some (.arr [], r2)
          else (parseElems fuel (c2 :: r2)).map (fun p => (.arr p.1, p.2))
        | [] => none
      else
        match c :: rest with
        | 'n' :: 'u' :: 'l' :: 'l' :: r => some (.null, r)
        | 't' :: 'r' :: 'u' :: 'e' :: r => some (.bool true, r)
        | 'f' :: 'a' :: 'l' :: 's' :: 'e' :: r => some (.bool false, r)
        | '-' :: r => (parseDigits r).map (fun p => (.num (-(p.1 : Int)), p.2))
        | cs' => (parseDigits cs').map (fun p => (.num (p.1 : Int), p.2))

/-- Parse the body of a JSON string after the opening quote. -/
def parseStringBody : Nat → List Char → Option (String × List Char)
  | 0, _ => none
  | fuel + 1, cs =>
    match cs with
    | [] => none
    | c :: rest =>
      if c = dquote then some ("", rest)
      else if c = '\\' then
        match rest with
        | e :: rest2 =>
          match jsonUnescape e with
          | some c2 => (parseStringBody fuel rest2).map (fun p => (String.mk (c2 :: p.1.data), p.2))
          | none => none
        | [] => none
      else (parseStringBody fuel rest).map (fun p => (String.mk (c :: p.1.data), p.2))

/-- Parse the comma-separated elements of a non-empty JSON array. -/
def parseElems : Nat → List Char → Option (List Json × List Char)
  | 0, _ => none
  | fuel + 1, cs =>
    match parseValue fuel cs with
    | none => none
    | some (v, r) =>
      match jsonSkipWs r with
      | c :: r2 =>
        if c = ',' then (parseElems fuel r2).map (fun p => (v :: p.1, p.2))
        else if c = ']' then some ([v], r2)
        else none
      | [] => none

/-- Parse the comma-separated members of a non-empty JSON object. -/
def parseMembers : Nat → List Char → Option (List (String × Json) × List Char)
  | 0, _ => none
  | fuel + 1, cs =>
    match jsonSkipWs cs with
    | [] => none
    | c :: r =>
      if c = dquote then
        match parseStringBody fuel r with
        | none => none
        | some (k, r2) =>
          match jsonSkipWs r2 with
          | c2 :: r3 =>
            if c2 = ':' then
              match parseValue fuel r3 with
              | none => none
              | some (v, r4) =>
                match jsonSkipWs r4 with
                | c3 :: r5 =>
                  if c3 = ',' then (parseMembers fuel r5).map (fun p => ((k, v) :: p.1, p.2))
                  else if c3 = rbrace then some ([(k, v)], r5)
                  else none
                | [] => none
            else none
          | [] => none
      else none

end

/-- Modelled from the spec: the browser runtime's `JSON.parse` as invoked
by `createNFT` (src/frontend/src/App.js); returns the parsed value, or a
parse-error message (the thrown SyntaxError's message) on input that is
not well-formed JSON. -/
def jsonParse (s : String) : Except String Json :=
  match parseValue (s.length + 1) s.data with
  | some (j, rest) =>
    if jsonSkipWs rest = [] then .ok j
    else .error "Unexpected non-whitespace character after JSON data"
  | none => .error "Unexpected token in JSON"

/-- An HTTP request as issued by the UI: method, full URL, optional JSON
body (the UI always serializes its body as JSON). -/
structure HttpRequest where
  method : String
  url : String
  body : Option Json

/-- The backend base URL hard-coded in src/frontend/src/App.js. -/
def apiBase : String := "http://localhost:8000"

/-- The mint request built by `createNFT` (src/frontend/src/App.js):
POST to /nft with JSON body holding `token_id` and the parsed
`metadata`. -/
def createNFTRequest (tokenId : String) (parsedMetadata : Json) : HttpRequest :=
  { method := "POST"
    url := apiBase ++ "/nft"
    body := some (.obj [("token_id", .str tokenId), ("metadata", parsedMetadata)]) }

/-- The chain-read request issued by `getBlockchain`
(src/frontend/src/App.js): GET /blockchain, no body. -/
def getBlockchainRequest : HttpRequest :=
  { method := "GET", url := apiBase ++ "/blockchain", body := none }

/-- The oracle request issued by `getQuantumAI`
(src/frontend/src/App.js): GET /quantum-ai, no body. -/
def getQuantumAIRequest : HttpRequest :=
  { method := "GET", url := apiBase ++ "/quantum-ai", body := none }

/-- JavaScript property access `j.k` on a parsed JSON value: the field's
value when `j` is an object carrying it, otherwise absent (undefined). -/
def jsGetField (j : Json) (k : String) : Option Json :=
  match j with
  | .obj fields => (fields.find? (fun kv => kv.1 = k)).map Prod.snd
  | _ => none

/-- What `setResult(data.message)` displays: the `message` field when it
is a string, otherwise nothing (React renders `undefined` as empty). -/
def messageOf (j : Json) : String :=
  match jsGetField j "message" with
  | some (.str s) => s
  | _ => ""

/-- The UI component's local state (src/frontend/src/App.js): the five
`useState` hooks of `App`. -/
structure UIState where
  tokenId : String
  metadata : String
  result : String
  blockchain : Option Json
  aiResult : String

/-- The initial UI state: empty token id, metadata input preset to the
two-character object literal, everything else empty
(src/frontend/src/App.js lines 4-8). -/
def initialUIState : UIState :=
  { tokenId := "", metadata := "\x7b\x7d", result := "", blockchain := none, aiResult := "" }

/-- `getBlockchain` (src/frontend/src/App.js lines 28-32): GET
/blockchain and store the parsed response body in the `blockchain`
state.  `net` models the network: the parsed JSON response to each
request.  Returns the new UI state and the list of requests issued. -/
def uiGetBlockchain (net : HttpRequest → Json) (st : UIState) : UIState × List HttpRequest :=
  ({ st with blockchain := some (net getBlockchainRequest) }, [getBlockchainRequest])

/-- `createNFT` (src/frontend/src/App.js lines 10-26): builds the fetch
body with `JSON.parse(metadata)` — evaluated before `fetch` is invoked,
so a parse error aborts the call inside the `try` with no request sent,
and the `catch` sets `result` to `"Error: "` plus the error message.  On
success, `result` is set to the response's `message` and `getBlockchain`
runs.  Returns the new UI state and the list of requests issued. -/
def uiCreateNFT (net : HttpRequest → Json) (st : UIState) : UIState × List HttpRequest :=
  match jsonParse st.metadata with
  | .error e => ({ st with result := "Error: " ++ e }, [])
  | .ok md =>
    let req := createNFTRequest st.tokenId md
    let data := net req
    let st1 := { st with result := messageOf data }
    let (st2, reqs2) := uiGetBlockchain net st1
    (st2, req :: reqs2)

/-- `getQuantumAI` (src/frontend/src/App.js lines 34-38): GET /quantum-ai
and store the response's `message` in the `aiResult` state. -/
def uiGetQuantumAI (net : HttpRequest → Json) (st : UIState) : UIState × List HttpRequest :=
  ({ st with aiResult := messageOf (net getQuantumAIRequest) }, [getQuantumAIRequest])

/-- The three (method, path) routes the service exposes.  Modelled from
the spec (§6). -/
def serviceRoutes : List (String × String) :=
  [("POST", "/nft"), ("GET", "/blockchain"), ("GET", "/quantum-ai")]

/-- Wire representation of a block (spec §6): sequence index, token id or
null, metadata or null, previous hash or null, own hash, timestamp. -/
def serializeBlock (b : Block) : Json :=
  .obj [("sequence_index", .num (b.sequence_index : Int)),
        ("token_id", match b.record with | some r => .str r.token_id | none => .null),
        ("metadata", match b.record with | some r => r.metadata | none => .null),
        ("previous_hash", match b.previous_hash with | some h => .num (h : Int) | none => .null),
        ("hash", .num (b.hash : Int)),
        ("timestamp", .num (b.timestamp : Int))]

/-- Modelled from the spec: the human-readable outcome message of a mint
(§6: "describing the outcome, including the new block's sequence
index"; §7: failures carry a human-readable message). -/
def mintMessage : MintResult → String
  | .success i => "Minted block " ++ toString i
  | .failure .InvalidMetadata => "Error: invalid metadata"
  | .failure .DuplicateIdentifier => "Error: duplicate identifier"
  | .failure .MalformedRequest => "Error: malformed request"

/-- Modelled from the spec: the Service Boundary (§4.5, §6).  Dispatches
a request to the mint, chain-read or oracle operation and serializes the
result; requests outside the three routes are not handled (`none`). -/
def handleRequest (s : ServiceState) (r : HttpRequest) (ts : Nat) : Option (Json × ServiceState) :=
  if r.method = "POST" ∧ r.url = apiBase ++ "/nft" then
    match r.body with
    | some body =>
      match jsGetField body "token_id", jsGetField body "metadata" with
      | some (.str tid), some md =>
        let (s', res) := handleMint s tid md ts
        some (.obj [("message", .str (mintMessage res))], s')
      | _, _ => some (.obj [("message", .str (mintMessage (.failure .MalformedRequest)))], s)
    | none => some (.obj [("message", .str (mintMessage (.failure .MalformedRequest)))], s)
  else if r.method = "GET" ∧ r.url = apiBase ++ "/blockchain" then
    some (.arr (s.ledger.snapshot.map serializeBlock), s)
  else if r.method = "GET" ∧ r.url = apiBase ++ "/quantum-ai" then
    let (msg, s') := handleOracle s ""
    some (.obj [("message", .str msg)], s')
  else none

/-- The hash-linkage relation between consecutive blocks: the successor
stores the recomputed content hash of its predecessor. -/
def linkOk (a b : Block) : Prop :=
  b.previous_hash = some (blockContentHash a)

/-- What `verifyFrom p l` checks, stated declaratively: every block's
stored hash is its recomputed content hash, the first block links to the
carried predecessor `p`, and consecutive blocks are hash-linked. -/
def ChainGood (p : Option Block) (l : List Block) : Prop :=
  (∀ b ∈ l, b.hash = blockContentHash b) ∧
  (∀ b ∈ l.head?, b.previous_hash = p.map blockContentHash) ∧
  List.Chain' linkOk l

theorem verifyFrom_ok_iff : ∀ (l : List Block) (p : Option Block),
    verifyFrom p l = .ok () ↔ ChainGood p l := by
  intro l
  induction l with
  | nil =>
    intro p
    simp [verifyFrom, ChainGood]
  | cons b rest ih =>
    intro p
    by_cases h1 : b.hash = blockContentHash b
    · by_cases h2 : b.previous_hash = p.map blockContentHash
      · have hv : verifyFrom p (b :: rest) = verifyFrom (some b) rest := by
          simp [verifyFrom, h1, h2]
        rw [hv, ih (some b)]
        unfold ChainGood
        constructor
        · rintro ⟨ha, hh, hc⟩
          refine ⟨?_, ?_, ?_⟩
          · intro x hx
            rcases List.mem_cons.mp hx with hx' | hx'
            · rw [hx']; exact h1
            · exact ha x hx'
          · intro x hx
            simp only [List.head?_cons, Option.mem_def, Option.some.injEq] at hx
            rw [← hx]; exact h2
          · exact List.chain'_cons'.mpr ⟨fun y hy => hh y hy, hc⟩
        · rintro ⟨ha, _, hc⟩
          refine ⟨fun x hx => ha x (List.mem_cons_of_mem _ hx), ?_, (List.chain'_cons'.mp hc).2⟩
          intro y hy
          exact (List.chain'_cons'.mp hc).1 y hy
      · constructor
        · intro hv
          exfalso
          simp [verifyFrom, h1, h2] at hv
        · rintro ⟨_, hh, _⟩
          exact absurd (hh b rfl) h2
    · constructor
      · intro hv
        exfalso
        simp [verifyFrom, h1] at hv
      · rintro ⟨ha, _, _⟩
        exact absurd (ha b (List.mem_cons_self b rest)) h1

/-- The state invariant maintained by the service: the chain verifies,
the registry keys are exactly the minted identifiers (newest first), no
identifier is registered twice, every block except genesis carries a
record, sequence indices equal chain positions, and the chain starts
with the genesis block. -/
def StateInv (s : ServiceState) : Prop :=
  ChainGood none s.ledger.chain ∧
  s.registry.index.map Prod.fst = (chainIds s.ledger).reverse ∧
  (s.registry.index.map Prod.fst).Nodup ∧
  s.ledger.chain.length = (chainIds s.ledger).length + 1 ∧
  s.ledger.chain.map Block.sequence_index = List.range s.ledger.chain.length ∧
  s.ledger.chain.head? = some genesisBlock

theorem freshState_StateInv : StateInv freshState := by
  refine ⟨⟨?_, ?_, ?_⟩, ?_, ?_, ?_, ?_, ?_⟩
  · intro b hb
    simp only [freshState, Ledger.new, List.mem_singleton] at hb
    rw [hb]; rfl
  · intro b hb
    simp only [freshState, Ledger.new, List.head?_cons, Option.mem_def, Option.some.injEq] at hb
    rw [← hb]; rfl
  · exact List.chain'_singleton _
  · rfl
  · exact List.nodup_nil
  · rfl
  · rfl
  · rfl

/-- The block a successful mint appends, spelled out. -/
def mintBlock (s : ServiceState) (tid : String) (md : Json) (ts : Nat) : Block :=
  { sequence_index := s.ledger.chain.length
    record := some ⟨tid, md, s.ledger.chain.length⟩
    previous_hash := s.ledger.chain.getLast?.map blockContentHash
    hash := contentHash s.ledger.chain.length (some ⟨tid, md, s.ledger.chain.length⟩)
      (s.ledger.chain.getLast?.map blockContentHash)
    timestamp := ts }

theorem reserve_free {R : Registry} {tid : String} {n : Nat}
    (h : tid ∉ R.index.map Prod.fst) :
    R.reserve tid n = .ok ⟨(tid, n) :: R.index⟩ := by
  unfold Registry.reserve
  rw [if_neg]
  intro hany
  rcases List.any_eq_true.mp hany with ⟨kv, hkv, heq⟩
  exact h (List.mem_map.mpr ⟨kv, hkv, of_decide_eq_true heq⟩)

theorem reserve_taken {R : Registry} {tid : String} {n : Nat}
    (h : tid ∈ R.index.map Prod.fst) :
    R.reserve tid n = .error .DuplicateIdentifier := by
  unfold Registry.reserve
  rw [if_pos]
  rcases List.mem_map.mp h with ⟨kv, hkv, heq⟩
  exact List.any_eq_true.mpr ⟨kv, hkv, decide_eq_true heq⟩

theorem mint_free {s : ServiceState} {tid : String} {md : Json} {ts : Nat}
    (hobj : md.isObj = true) (hne : tid ≠ "")
    (hfree : tid ∉ s.registry.index.map Prod.fst) :
    mint s tid md ts =
      .ok ({ ledger := ⟨s.ledger.chain ++ [mintBlock s tid md ts]⟩
             registry := ⟨(tid, s.ledger.chain.length) :: s.registry.index⟩ },
           mintBlock s tid md ts) := by
  unfold mint
  rw [if_neg (by simp [hobj]), if_neg hne, reserve_free hfree]
  rfl

theorem mint_taken {s : ServiceState} {tid : String} {md : Json} {ts : Nat}
    (hobj : md.isObj = true) (hne : tid ≠ "")
    (htaken : tid ∈ s.registry.index.map Prod.fst) :
    mint s tid md ts = .error .DuplicateIdentifier := by
  unfold mint
  rw [if_neg (by simp [hobj]), if_neg hne, reserve_taken htaken]

theorem mint_nonobject {s : ServiceState} {tid : String} {md : Json} {ts : Nat}
    (hobj : md.isObj = false) :
    mint s tid md ts = .error .InvalidMetadata := by
  unfold mint
  rw [if_pos hobj]

theorem mint_empty_id {s : ServiceState} {md : Json} {ts : Nat}
    (hobj : md.isObj = true) :
    mint s "" md ts = .error .InvalidMetadata := by
  unfold mint
  rw [if_neg (by simp [hobj]), if_pos rfl]

theorem handleMint_of_mint_error {s : ServiceState} {tid : String} {md : Json} {ts : Nat}
    {e : MintError} (h : mint s tid md ts = .error e) :
    handleMint s tid md ts = (s, .failure e) := by
  unfold handleMint
  rw [h]

theorem handleMint_of_mint_ok {s s' : ServiceState} {tid : String} {md : Json} {ts : Nat}
    {b : Block} (h : mint s tid md ts = .ok (s', b)) :
    handleMint s tid md ts = (s', .success b.sequence_index) := by
  unfold handleMint
  rw [h]

theorem chainIds_append_mintBlock (s : ServiceState) (tid : String) (md : Json) (ts : Nat) :
    chainIds ⟨s.ledger.chain ++ [mintBlock s tid md ts]⟩ = chainIds s.ledger ++ [tid] := by
  simp [chainIds, mintBlock, List.filterMap_append]

theorem handleMint_StateInv (s : ServiceState) (tid : String) (md : Json) (ts : Nat)
    (h : StateInv s) : StateInv (handleMint s tid md ts).1 := by
  by_cases hobj : md.isObj = true
  · by_cases hne : tid = ""
    · rw [hne, handleMint_of_mint_error (mint_empty_id hobj)]
      exact h
    · by_cases hfree : tid ∈ s.registry.index.map Prod.fst
      · rw [handleMint_of_mint_error (mint_taken hobj hne hfree)]
        exact h
      · rw [handleMint_of_mint_ok (mint_free hobj hne hfree)]
        obtain ⟨⟨hhash, hhead, hchain⟩, hkeys, hnd, hlen, hseq, hgen⟩ := h
        have hnn : s.ledger.chain ≠ [] := by
          intro hnil
          rw [hnil] at hgen
          cases hgen
        refine ⟨⟨?_, ?_, ?_⟩, ?_, ?_, ?_, ?_, ?_⟩
        · intro x hx
          rcases List.mem_append.mp hx with hx' | hx'
          · exact hhash x hx'
          · rw [List.mem_singleton.mp hx']; rfl
        · intro x hx
          rw [List.head?_append_of_ne_nil _ hnn] at hx
          exact hhead x hx
        · refine List.Chain'.append hchain (List.chain'_singleton _) ?_
          intro x hx y hy
          simp only [List.head?_cons, Option.mem_def, Option.some.injEq] at hy
          rw [← hy]
          show (mintBlock s tid md ts).previous_hash = some (blockContentHash x)
          simp [mintBlock, Option.mem_def.mp hx]
        · simp only [chainIds_append_mintBlock, List.map_cons, List.reverse_append,
            List.reverse_singleton, List.singleton_append, List.cons.injEq]
          exact ⟨trivial, hkeys⟩
        · exact List.nodup_cons.mpr ⟨hfree, hnd⟩
        · simp [chainIds_append_mintBlock, hlen]
        · simp only [List.map_append, hseq, List.length_append, List.length_singleton]
          simp [mintBlock, List.range_succ, hlen]
        · rw [List.head?_append_of_ne_nil _ hnn]
          exact hgen
  · rw [handleMint_of_mint_error (mint_nonobject (by simpa using hobj))]
    exact h

theorem mintMany_cons (s : ServiceState) (r : MintReq) (reqs : List MintReq) :
    mintMany s (r :: reqs) = mintMany (handleMint s r.token_id r.metadata r.ts).1 reqs := rfl

theorem mintMany_StateInv (reqs : List MintReq) : ∀ (s : ServiceState),
    StateInv s → StateInv (mintMany s reqs) := by
  induction reqs with
  | nil => intro s h; exact h
  | cons r rest ih =>
    intro s h
    rw [mintMany_cons]
    exact ih _ (handleMint_StateInv s r.token_id r.metadata r.ts h)

theorem seqIdx_at (l : List Block) (hseq : l.map Block.sequence_index = List.range l.length)
    (i : Nat) (hi : i < l.length) : (l.get ⟨i, hi⟩).sequence_index = i := by
  have hlt : i < (l.map Block.sequence_index).length := by simpa using hi
  have h1 : (l.map Block.sequence_index)[i] = Block.sequence_index l[i] :=
    List.getElem_map Block.sequence_index
  have h2 := List.get_of_eq hseq ⟨i, hlt⟩
  simp only [List.get_eq_getElem] at h2
  rw [h1] at h2
  rw [List.getElem_range] at h2
  simpa using h2

/-- C1: every sequence of mint operations applied through the service to
a freshly constructed Ledger leaves a chain on which `verify()` succeeds
(returns no CorruptionAt error). -/
theorem mint_sequence_verifies (reqs : List MintReq) :
    (mintMany freshState reqs).ledger.verify = .ok () :=
  (verifyFrom_ok_iff _ none).mpr (mintMany_StateInv reqs freshState freshState_StateInv).1

/-- C2: in every reachable Ledger, the block at position i+1 has
sequence index i+1 and stores as `previous_hash` the content hash of the
block at position i, recomputed from that block's fields. -/
theorem prev_hash_is_recomputed_hash (reqs : List MintReq) (i : Nat)
    (h : i + 1 < (mintMany freshState reqs).ledger.chain.length) :
    ((mintMany freshState reqs).ledger.chain.get ⟨i + 1, h⟩).sequence_index = i + 1 ∧
    ((mintMany freshState reqs).ledger.chain.get ⟨i + 1, h⟩).previous_hash =
      some (blockContentHash
        ((mintMany freshState reqs).ledger.chain.get ⟨i, Nat.lt_of_succ_lt h⟩)) := by
  have hinv := mintMany_StateInv reqs freshState freshState_StateInv
  constructor
  · exact seqIdx_at _ hinv.2.2.2.2.1 (i + 1) h
  · have hc := hinv.1.2.2
    have hlink := List.chain'_iff_get.mp hc i (by omega)
    exact hlink

/-- Witness for C2: after minting one token on a fresh ledger, block 1
links to the recomputed hash of block 0. -/
theorem prev_hash_is_recomputed_hash_witness :
    ((mintMany freshState [⟨"t1", Json.obj [], 5⟩]).ledger.chain.get ⟨1, by decide⟩).sequence_index = 1 ∧
    ((mintMany freshState [⟨"t1", Json.obj [], 5⟩]).ledger.chain.get ⟨1, by decide⟩).previous_hash =
      some (blockContentHash
        ((mintMany freshState [⟨"t1", Json.obj [], 5⟩]).ledger.chain.get ⟨0, by decide⟩)) :=
  prev_hash_is_recomputed_hash [⟨"t1", Json.obj [], 5⟩] 0 (by decide)

/-- C3: `append` produces a block indexed by the pre-call length, linked
to the recomputed content hash of the pre-call last block, pushes it at
the end, returns it, and grows the chain by exactly one. -/
theorem append_spec (L : Ledger) (r : TokenRecord) (ts : Nat) (h : L.chain ≠ []) :
    (L.append r ts).2.sequence_index = L.chain.length ∧
    (L.append r ts).2.previous_hash = some (blockContentHash (L.chain.getLast h)) ∧
    (L.append r ts).1.chain = L.chain ++ [(L.append r ts).2] ∧
    (L.append r ts).1.chain.length = L.chain.length + 1 := by
  refine ⟨rfl, ?_, rfl, by simp [Ledger.append]⟩
  show L.chain.getLast?.map blockContentHash = some (blockContentHash (L.chain.getLast h))
  rw [List.getLast?_eq_getLast L.chain h]
  rfl

/-- Witness for C3: appending a record to the fresh ledger. -/
theorem append_spec_witness :
    (Ledger.new.append ⟨"t1", Json.obj [], 0⟩ 7).2.sequence_index = Ledger.new.chain.length ∧
    (Ledger.new.append ⟨"t1", Json.obj [], 0⟩ 7).2.previous_hash =
      some (blockContentHash (Ledger.new.chain.getLast (by simp [Ledger.new]))) ∧
    (Ledger.new.append ⟨"t1", Json.obj [], 0⟩ 7).1.chain =
      Ledger.new.chain ++ [(Ledger.new.append ⟨"t1", Json.obj [], 0⟩ 7).2] ∧
    (Ledger.new.append ⟨"t1", Json.obj [], 0⟩ 7).1.chain.length = Ledger.new.chain.length + 1 :=
  append_spec Ledger.new ⟨"t1", Json.obj [], 0⟩ 7 (by simp [Ledger.new])

/-- C5: a mint whose metadata is not a JSON object fails with
`InvalidMetadata` and leaves the service state (hence the chain)
untouched. -/
theorem nonobject_metadata_rejected (s : ServiceState) (tid : String) (md : Json) (ts : Nat)
    (h : md.isObj = false) :
    handleMint s tid md ts = (s, .failure .InvalidMetadata) :=
  handleMint_of_mint_error (mint_nonobject h)

/-- Witness for C5: minting with string metadata is rejected with no
state change. -/
theorem nonobject_metadata_rejected_witness :
    handleMint freshState "t1" (Json.str "oops") 0 = (freshState, .failure .InvalidMetadata) :=
  nonobject_metadata_rejected freshState "t1" (Json.str "oops") 0 rfl

/-- C8: the oracle handler mutates nothing (the state it returns is the
state it was given) and is deterministic: repeating the same query with
no mutation in between yields the identical message. -/
theorem oracle_deterministic_pure (s : ServiceState) (q : String) :
    (handleOracle s q).2 = s ∧
    (handleOracle (handleOracle s q).2 q).1 = (handleOracle s q).1 :=
  ⟨rfl, rfl⟩

theorem mint_ok_inversion {s s' : ServiceState} {b : Block} {tid : String} {md : Json}
    {ts : Nat} (h : mint s tid md ts = .ok (s', b)) :
    md.isObj = true ∧ tid ≠ "" ∧
    s'.registry.index = (tid, s.ledger.chain.length) :: s.registry.index ∧
    s'.ledger.chain = s.ledger.chain ++ [b] := by
  by_cases hobj : md.isObj = true
  · by_cases hne : tid = ""
    · subst hne
      rw [mint_empty_id hobj] at h
      cases h
    · by_cases hfree : tid ∈ s.registry.index.map Prod.fst
      · rw [mint_taken hobj hne hfree] at h
        cases h
      · rw [mint_free hobj hne hfree] at h
        simp only [Except.ok.injEq, Prod.mk.injEq] at h
        obtain ⟨hs, hb⟩ := h
        refine ⟨hobj, hne, ?_, ?_⟩
        · rw [← hs]
        · rw [← hs, ← hb]
  · rw [mint_nonobject (by simpa using hobj)] at h
    cases h

/-- C4: once an identifier is in the Registry (here: after any
successful mint of it), minting it again fails with
`DuplicateIdentifier` and the failed call leaves the service state, and
hence the chain, exactly as it was. -/
theorem second_mint_duplicate (s s' : ServiceState) (b : Block) (tid : String)
    (md md2 : Json) (ts ts2 : Nat)
    (h1 : mint s tid md ts = .ok (s', b)) (h2 : md2.isObj = true) :
    handleMint s' tid md2 ts2 = (s', .failure .DuplicateIdentifier) := by
  obtain ⟨_, hne, hreg, _⟩ := mint_ok_inversion h1
  have htaken : tid ∈ s'.registry.index.map Prod.fst := by
    rw [hreg]
    exact List.mem_map.mpr ⟨(tid, s.ledger.chain.length), List.mem_cons_self _ _, rfl⟩
  exact handleMint_of_mint_error (mint_taken h2 hne htaken)

/-- Witness for C4: minting "t1" twice on a fresh service; the second
call fails with `DuplicateIdentifier` and changes nothing. -/
theorem second_mint_duplicate_witness :
    handleMint (handleMint freshState "t1" (Json.obj []) 0).1 "t1" (Json.obj []) 1 =
      ((handleMint freshState "t1" (Json.obj []) 0).1, .failure .DuplicateIdentifier) := by
  have h1 : mint freshState "t1" (Json.obj []) 0 =
      .ok ({ ledger := ⟨freshState.ledger.chain ++ [mintBlock freshState "t1" (Json.obj []) 0]⟩
             registry := ⟨("t1", freshState.ledger.chain.length) :: freshState.registry.index⟩ },
           mintBlock freshState "t1" (Json.obj []) 0) :=
    mint_free rfl (by decide) (by decide)
  have hfst : (handleMint freshState "t1" (Json.obj []) 0).1 =
      { ledger := ⟨freshState.ledger.chain ++ [mintBlock freshState "t1" (Json.obj []) 0]⟩
        registry := ⟨("t1", freshState.ledger.chain.length) :: freshState.registry.index⟩ } := by
    rw [handleMint_of_mint_ok h1]
  rw [hfst]
  exact second_mint_duplicate freshState _ _ "t1" (Json.obj []) (Json.obj []) 0 1 h1 rfl

/-- C6: the Ledger is constructed holding exactly the genesis block
(sequence 0, no record, absent previous hash); every reachable chain is
non-empty and still starts with genesis; and no mint operation ever
removes blocks — the post-state chain is always the pre-state chain plus
a (possibly empty) suffix. -/
theorem ledger_always_nonempty :
    Ledger.new.chain = [genesisBlock] ∧
    genesisBlock.sequence_index = 0 ∧
    genesisBlock.record = none ∧
    genesisBlock.previous_hash = none ∧
    (∀ reqs : List MintReq, 0 < (mintMany freshState reqs).ledger.chain.length ∧
      (mintMany freshState reqs).ledger.chain.head? = some genesisBlock) ∧
    (∀ (s : ServiceState) (tid : String) (md : Json) (ts : Nat),
      ∃ t, ((handleMint s tid md ts).1).ledger.chain = s.ledger.chain ++ t) := by
  refine ⟨rfl, rfl, rfl, rfl, ?_, ?_⟩
  · intro reqs
    have h := (mintMany_StateInv reqs freshState freshState_StateInv).2.2.2.2.2
    refine ⟨?_, h⟩
    cases hchain : (mintMany freshState reqs).ledger.chain with
    | nil => rw [hchain] at h; cases h
    | cons a l => simp
  · intro s tid md ts
    by_cases hobj : md.isObj = true
    · by_cases hne : tid = ""
      · subst hne
        rw [handleMint_of_mint_error (mint_empty_id hobj)]
        exact ⟨[], (List.append_nil _).symm⟩
      · by_cases hfree : tid ∈ s.registry.index.map Prod.fst
        · rw [handleMint_of_mint_error (mint_taken hobj hne hfree)]
          exact ⟨[], (List.append_nil _).symm⟩
        · rw [handleMint_of_mint_ok (mint_free hobj hne hfree)]
          exact ⟨[mintBlock s tid md ts], rfl⟩
    · rw [handleMint_of_mint_error (mint_nonobject (by simpa using hobj))]
      exact ⟨[], (List.append_nil _).symm⟩

theorem mintMany_distinct_aux (reqs : List MintReq) : ∀ (s : ServiceState),
    (∀ r ∈ reqs, r.token_id ≠ "" ∧ r.metadata.isObj = true) →
    (reqs.map MintReq.token_id).Nodup →
    (∀ r ∈ reqs, r.token_id ∉ s.registry.index.map Prod.fst) →
    (mintMany s reqs).ledger.chain.length = s.ledger.chain.length + reqs.length ∧
    chainIds (mintMany s reqs).ledger = chainIds s.ledger ++ reqs.map MintReq.token_id := by
  induction reqs with
  | nil =>
    intro s _ _ _
    exact ⟨rfl, (List.append_nil _).symm⟩
  | cons r rest ih =>
    intro s hv hnd hfree
    have hne := (hv r (List.mem_cons_self r rest)).1
    have hobj := (hv r (List.mem_cons_self r rest)).2
    have hfr := hfree r (List.mem_cons_self r rest)
    have hstep : (handleMint s r.token_id r.metadata r.ts).1 =
        { ledger := ⟨s.ledger.chain ++ [mintBlock s r.token_id r.metadata r.ts]⟩
          registry := ⟨(r.token_id, s.ledger.chain.length) :: s.registry.index⟩ } := by
      rw [handleMint_of_mint_ok (mint_free hobj hne hfr)]
    rw [mintMany_cons, hstep]
    have hhead : r.token_id ∉ rest.map MintReq.token_id := (List.nodup_cons.mp hnd).1
    have hrec := ih
      { ledger := ⟨s.ledger.chain ++ [mintBlock s r.token_id r.metadata r.ts]⟩
        registry := ⟨(r.token_id, s.ledger.chain.length) :: s.registry.index⟩ }
      (fun x hx => hv x (List.mem_cons_of_mem r hx))
      ((List.nodup_cons.mp hnd).2)
      (by
        intro x hx
        show x.token_id ∉ List.map Prod.fst ((r.token_id, s.ledger.chain.length) :: s.registry.index)
        simp only [List.map_cons, List.mem_cons]
        rintro (hx1 | hx2)
        · exact hhead (hx1 ▸ List.mem_map_of_mem MintReq.token_id hx)
        · exact hfree x (List.mem_cons_of_mem r hx) hx2)
    constructor
    · rw [hrec.1]
      show (s.ledger.chain ++ [mintBlock s r.token_id r.metadata r.ts]).length + rest.length =
        s.ledger.chain.length + (r :: rest).length
      simp only [List.length_append, List.length_cons, List.length_nil]
      omega
    · rw [hrec.2, chainIds_append_mintBlock]
      simp only [List.map_cons, List.append_assoc, List.singleton_append]

/-- C7: interleavings of concurrent mints are orders of atomic mint
steps (the mint path is one critical section, spec §5).  (i) Any order
of N valid mints with N distinct identifiers yields a chain of N+1
blocks whose minted identifiers are exactly those N, each once; (ii) in
every reachable state the chain never carries the same identifier twice;
(iii) minting the same identifier twice from a fresh service, in either
order the same program: the first call succeeds (block 1) and the second
fails with `DuplicateIdentifier`, leaving the state unchanged. -/
theorem concurrent_mints :
    (∀ reqs : List MintReq,
      (∀ r ∈ reqs, r.token_id ≠ "" ∧ r.metadata.isObj = true) →
      (reqs.map MintReq.token_id).Nodup →
      (mintMany freshState reqs).ledger.chain.length = reqs.length + 1 ∧
      chainIds (mintMany freshState reqs).ledger = reqs.map MintReq.token_id ∧
      (∀ r ∈ reqs, (chainIds (mintMany freshState reqs).ledger).count r.token_id = 1)) ∧
    (∀ reqs : List MintReq, (chainIds (mintMany freshState reqs).ledger).Nodup) ∧
    (∀ (tid : String) (md md2 : Json) (ts ts2 : Nat),
      tid ≠ "" → md.isObj = true → md2.isObj = true →
      (handleMint freshState tid md ts).2 = .success 1 ∧
      handleMint (handleMint freshState tid md ts).1 tid md2 ts2 =
        ((handleMint freshState tid md ts).1, .failure .DuplicateIdentifier)) := by
  refine ⟨?_, ?_, ?_⟩
  · intro reqs hv hnd
    have h := mintMany_distinct_aux reqs freshState hv hnd
      (by intro r _; exact List.not_mem_nil _)
    have hids : chainIds (mintMany freshState reqs).ledger = reqs.map MintReq.token_id := by
      have := h.2
      simpa [freshState, Ledger.new, chainIds, genesisBlock] using this
    refine ⟨?_, hids, ?_⟩
    · have h1 := h.1
      have h2 : freshState.ledger.chain.length = 1 := rfl
      omega
    intro r hr
    rw [hids]
    exact List.count_eq_one_of_mem hnd (List.mem_map_of_mem MintReq.token_id hr)
  · intro reqs
    obtain ⟨_, hkeys, hnd, _, _, _⟩ := mintMany_StateInv reqs freshState freshState_StateInv
    rw [hkeys] at hnd
    exact List.nodup_reverse.mp hnd
  · intro tid md md2 ts ts2 hne hobj hobj2
    have hfr : tid ∉ freshState.registry.index.map Prod.fst := List.not_mem_nil _
    have h1 := @mint_free freshState tid md ts hobj hne hfr
    constructor
    · rw [handleMint_of_mint_ok h1]
      rfl
    · have hfst : (handleMint freshState tid md ts).1 =
          { ledger := ⟨freshState.ledger.chain ++ [mintBlock freshState tid md ts]⟩
            registry := ⟨(tid, freshState.ledger.chain.length) :: freshState.registry.index⟩ } := by
        rw [handleMint_of_mint_ok h1]
      rw [hfst]
      exact second_mint_duplicate freshState _ _ tid md md2 ts ts2 h1 hobj2

/-- Witness for C7: two distinct identifiers minted on a fresh service
give a 3-block chain in which "a" is minted exactly once; and a
same-identifier pair has the stated outcome. -/
theorem concurrent_mints_witness :
    (mintMany freshState [⟨"a", Json.obj [], 0⟩, ⟨"b", Json.obj [], 1⟩]).ledger.chain.length = 3 ∧
    (chainIds (mintMany freshState [⟨"a", Json.obj [], 0⟩, ⟨"b", Json.obj [], 1⟩]).ledger).count "a" = 1 ∧
    (handleMint freshState "c" (Json.obj []) 0).2 = .success 1 ∧
    handleMint (handleMint freshState "c" (Json.obj []) 0).1 "c" (Json.obj []) 1 =
      ((handleMint freshState "c" (Json.obj []) 0).1, .failure .DuplicateIdentifier) := by
  have h := concurrent_mints.1 [⟨"a", Json.obj [], 0⟩, ⟨"b", Json.obj [], 1⟩]
    (by decide) (by decide)
  have hp := concurrent_mints.2.2 "c" (Json.obj []) (Json.obj []) 0 1 (by decide) rfl rfl
  exact ⟨h.1, h.2.2 ⟨"a", Json.obj [], 0⟩ (List.mem_cons_self _ _), hp.1, hp.2⟩

/-- C9: the wire contract.  (i) A UI mint request is handled by the
boundary and answered with a single-field object carrying a string
`message`; (ii) the chain read returns the ordered array of block
representations and leaves the state unchanged; (iii) the oracle request
is answered with a string `message` and leaves the state unchanged;
(iv) the boundary handles nothing outside the three routes; (v)-(vii)
the UI issues exactly these calls: `createNFT` sends only its POST /nft
request (plus the follow-up chain read), `getBlockchain` and
`getQuantumAI` send exactly their one GET each. -/
theorem service_interface :
    (∀ (s : ServiceState) (tid : String) (md : Json) (ts : Nat),
      handleRequest s (createNFTRequest tid md) ts =
        some (.obj [("message", .str (mintMessage (handleMint s tid md ts).2))],
          (handleMint s tid md ts).1)) ∧
    (∀ (s : ServiceState) (ts : Nat),
      handleRequest s getBlockchainRequest ts =
        some (.arr (s.ledger.chain.map serializeBlock), s)) ∧
    (∀ (s : ServiceState) (ts : Nat),
      handleRequest s getQuantumAIRequest ts =
        some (.obj [("message", .str (Oracle.respond "" s.ledger.chain.length))], s)) ∧
    (∀ (s : ServiceState) (r : HttpRequest) (ts : Nat) (resp : Json) (s' : ServiceState),
      handleRequest s r ts = some (resp, s') →
      (r.method, r.url) ∈ serviceRoutes.map (fun mp => (mp.1, apiBase ++ mp.2))) ∧
    (∀ (net : HttpRequest → Json) (st : UIState) (r : HttpRequest),
      r ∈ (uiCreateNFT net st).2 →
        (∃ md, r = createNFTRequest st.tokenId md) ∨ r = getBlockchainRequest) ∧
    (∀ (net : HttpRequest → Json) (st : UIState),
      (uiGetBlockchain net st).2 = [getBlockchainRequest]) ∧
    (∀ (net : HttpRequest → Json) (st : UIState),
      (uiGetQuantumAI net st).2 = [getQuantumAIRequest]) := by
  refine ⟨?_, ?_, ?_, ?_, ?_, fun net st => rfl, fun net st => rfl⟩
  · intro s tid md ts
    show (if ("POST" = "POST" ∧ apiBase ++ "/nft" = apiBase ++ "/nft") then _ else _) = _
    rw [if_pos ⟨rfl, rfl⟩]
    rfl
  · intro s ts
    rfl
  · intro s ts
    rfl
  · intro s r ts resp s' h
    unfold handleRequest at h
    split_ifs at h with h1 h2 h3
    · simp only [serviceRoutes, List.map_cons, List.mem_cons]
      left
      rw [h1.1, h1.2]
    · simp only [serviceRoutes, List.map_cons, List.mem_cons]
      right; left
      rw [h2.1, h2.2]
    · simp only [serviceRoutes, List.map_cons, List.mem_cons]
      right; right; left
      rw [h3.1, h3.2]
  · intro net st r hr
    unfold uiCreateNFT at hr
    cases hparse : jsonParse st.metadata with
    | error e =>
      rw [hparse] at hr
      cases hr
    | ok md =>
      rw [hparse] at hr
      rcases List.mem_cons.mp hr with h1 | h1
      · exact Or.inl ⟨md, h1⟩
      · rcases List.mem_cons.mp h1 with h2 | h2
        · exact Or.inr h2
        · cases h2

/-- Witness for C9: the boundary answers a fresh chain read with the
serialized one-block array, and that request's method and URL are one of
the three exposed routes. -/
theorem service_interface_witness :
    handleRequest freshState getBlockchainRequest 0 =
      some (.arr (freshState.ledger.chain.map serializeBlock), freshState) ∧
    (getBlockchainRequest.method, getBlockchainRequest.url) ∈
      serviceRoutes.map (fun mp => (mp.1, apiBase ++ mp.2)) := by
  have h := service_interface.2.1 freshState 0
  exact ⟨h, service_interface.2.2.2.1 freshState getBlockchainRequest 0 _ _ h⟩

/-- C10: when the metadata input is not well-formed JSON, `createNFT`
issues no HTTP request at all, displays "Error: " followed by the parse
error's message, and leaves the tokenId and metadata inputs unchanged. -/
theorem createNFT_bad_json (net : HttpRequest → Json) (st : UIState) (e : String)
    (h : jsonParse st.metadata = .error e) :
    (uiCreateNFT net st).2 = [] ∧
    (uiCreateNFT net st).1.result = "Error: " ++ e ∧
    (uiCreateNFT net st).1.tokenId = st.tokenId ∧
    (uiCreateNFT net st).1.metadata = st.metadata := by
  unfold uiCreateNFT
  rw [h]
  exact ⟨rfl, rfl, rfl, rfl⟩

/-- Witness for C10: the input "not json" triggers the error path with
no request issued and the inputs intact. -/
theorem createNFT_bad_json_witness :
    (uiCreateNFT (fun _ => Json.null) { initialUIState with metadata := "not json" }).2 = [] ∧
    (uiCreateNFT (fun _ => Json.null) { initialUIState with metadata := "not json" }).1.result =
      "Error: " ++ "Unexpected token in JSON" ∧
    (uiCreateNFT (fun _ => Json.null) { initialUIState with metadata := "not json" }).1.tokenId =
      ({ initialUIState with metadata := "not json" } : UIState).tokenId ∧
    (uiCreateNFT (fun _ => Json.null) { initialUIState with metadata := "not json" }).1.metadata =
      ({ initialUIState with metadata := "not json" } : UIState).metadata :=
  createNFT_bad_json (fun _ => Json.null) { initialUIState with metadata := "not json" }
    "Unexpected token in JSON" rfl
